import Mathlib

/-!
Verification of the BEM (blade-element-momentum) solver core:
a shallow embedding over `ℝ` of `src/bem_solver.py` (the functions
`solve_bem`, `compute_power_thrust_curves` and `compute_cp_ct_surfaces`),
together with theorems settling the specified properties.
-/

open scoped Classical

namespace BEM

noncomputable section

/-- `np.clip(x, lo, hi)`. -/
def clip (x lo hi : ℝ) : ℝ := min (max x lo) hi

/-- `np.arctan2(y, x)`: the angle of the point `(x, y)`, in `(-π, π]`. -/
def arctan2 (y x : ℝ) : ℝ :=
  if 0 < x then Real.arctan (y / x)
  else if x < 0 then
    (if 0 ≤ y then Real.arctan (y / x) + Real.pi else Real.arctan (y / x) - Real.pi)
  else
    (if 0 < y then Real.pi / 2 else if y < 0 then -(Real.pi / 2) else 0)

/-- `np.max` of a (nonempty) float array. -/
def npMax : List ℝ → ℝ
  | [] => 0
  | x :: xs => xs.foldl max x

/-- `np.gradient` of a 1-D array: one-sided differences at the two ends,
centered differences in the interior. -/
def npGradient (xs : List ℝ) : List ℝ :=
  (List.range xs.length).map (fun i =>
    if xs.length ≤ 1 then 0
    else if i = 0 then xs.getD 1 0 - xs.getD 0 0
    else if i = xs.length - 1 then xs.getD i 0 - xs.getD (i - 1) 0
    else (xs.getD (i + 1) 0 - xs.getD (i - 1) 0) / 2)

/-- `np.rad2deg`. -/
def rad2deg (x : ℝ) : ℝ := x * 180 / Real.pi

/-- Modelled from the spec: the airfoil-polar interpolation of
`interpolate_airfoil_coefficients` (its module `airfoil_tools.py` is not
among the sources).  On a table of `(x, y)` points sorted by ascending `x`:
piecewise-linear interpolation between the two bracketing points, the
boundary value held constant outside the tabulated range (flat
extrapolation), and a single-point table returns its sole value. -/
def interpPts : List (ℝ × ℝ) → ℝ → ℝ
  | [], _ => 0
  | [(_, y)], _ => y
  | (x1, y1) :: (x2, y2) :: rest, q =>
    if q ≤ x1 then y1
    else if q ≤ x2 then y1 + (y2 - y1) * (q - x1) / (x2 - x1)
    else interpPts ((x2, y2) :: rest) q

/-- Modelled from the spec: `interpolate_airfoil_coefficients(alpha_data,
cl_data, cd_data, alpha)` returns the pair of interpolated lift and drag
coefficients at the query angle. -/
def interpolate_airfoil_coefficients (alphas cls cds : List ℝ) (alpha : ℝ) : ℝ × ℝ :=
  (interpPts (alphas.zip cls) alpha, interpPts (alphas.zip cds) alpha)

/-- Blade geometry: parallel arrays of span position, chord, twist and
airfoil identifier. -/
structure Blade where
  r : List ℝ
  c : List ℝ
  beta : List ℝ
  af : List ℤ

/-- The polar database: a finite map from airfoil identifier to a table
`(alpha_data, cl_data, cd_data)`; `none` models `af_id[i] not in polar_database`. -/
def PolarDB : Type := ℤ → Option (List ℝ × List ℝ × List ℝ)

/-- Lines 79-84 of `solve_bem`: look the airfoil up in the database and
interpolate; a missing airfoil id yields the fixed fallback pair
`(0.0001, 0.35)`. -/
def coeffLookup (db : PolarDB) (afid : ℤ) (alpha : ℝ) : ℝ × ℝ :=
  match db afid with
  | some tbl => interpolate_airfoil_coefficients tbl.1 tbl.2.1 tbl.2.2 alpha
  | none => (0.0001, 0.35)

/-- The per-station constants read by the inner iteration of `solve_bem`. -/
structure StParams where
  v0 : ℝ
  omega : ℝ
  rr : ℝ
  R : ℝ
  sigma : ℝ
  pitch : ℝ
  beta : ℝ
  lookup : ℝ → ℝ × ℝ

/-- Lines 66-73 (and 137-141): the simplified Prandtl tip-loss factor,
with the `|sin φ| < 1e-6` guard forcing `F = 0.99`. -/
def prandtlF (R rr phi : ℝ) : ℝ :=
  if |Real.sin phi| < 1e-6 then 0.99
  else (2 / Real.pi) * Real.arccos (Real.exp (-((3 / 2) * (R - rr) / (rr * Real.sin phi))))

/-- Lines 63-110 of `solve_bem`: one pass of the fixed-point iteration,
producing the candidate induction factors `(new_a, new_a_prime)` from the
current ones. -/
def newInduction (p : StParams) (a aP : ℝ) : ℝ × ℝ :=
  let phi := arctan2 ((1 - a) * p.v0) ((1 + aP) * p.omega * p.rr)
  let F := prandtlF p.R p.rr phi
  let alpha := rad2deg phi - (p.pitch + p.beta)
  let cl := (p.lookup alpha).1
  let cd := (p.lookup alpha).2
  let cn := cl * Real.cos phi + cd * Real.sin phi
  let ct := cl * Real.sin phi - cd * Real.cos phi
  let na :=
    if cn ≤ 0.01 then 0
    else
      let term := 4 * F * Real.sin phi ^ 2 / (p.sigma * cn)
      let v := 1 / (term + 1)
      if v > 0.4 then 0.4 else v
  let naP :=
    if ct ≤ 0.01 ∨ Real.sin phi < 0.01 ∨ Real.cos phi < 0.01 then 0
    else
      let term := 4 * F * Real.sin phi * Real.cos phi / (p.sigma * ct)
      if term ≤ 1 then 0 else 1 / (term - 1)
  (na, naP)

/-- Lines 116-123: the relaxation update (`relax = 0.5`) followed by the
clamps of both induction factors. -/
def stationUpdate (p : StParams) (s : ℝ × ℝ) : ℝ × ℝ :=
  let n := newInduction p s.1 s.2
  (clip (0.5 * s.1 + (1 - 0.5) * n.1) 0 0.5,
   clip (0.5 * s.2 + (1 - 0.5) * n.2) (-0.5) 0.5)

/-- Lines 112-114: the convergence test performed on each pass (tolerance
`1e-5` on both induction factors, against the candidate values). -/
def convergedAt (p : StParams) (s : ℝ × ℝ) : Prop :=
  |(newInduction p s.1 s.2).1 - s.1| < 1e-5 ∧ |(newInduction p s.1 s.2).2 - s.2| < 1e-5

/-- Lines 62-123: the bounded fixed-point loop (`for _ in range(100)`),
with its early `break`; returns the final state together with the number
of passes executed. -/
def stationIterAux (p : StParams) : ℕ → ℝ × ℝ → (ℝ × ℝ) × ℕ
  | 0, s => (s, 0)
  | n + 1, s =>
    if convergedAt p s then (s, 1)
    else
      ((stationIterAux p n (stationUpdate p s)).1,
       (stationIterAux p n (stationUpdate p s)).2 + 1)

/-- The constants of station `i` as read off the geometry, the operating
point and the polar database (lines 43, 59, 76, 79-84). -/
def stParamsAt (b : Blade) (v0 pitch rpm : ℝ) (db : PolarDB) (i : ℕ) : StParams :=
  { v0 := v0
    omega := rpm * 2 * Real.pi / 60
    rr := b.r.getD i 0
    R := npMax b.r
    sigma := 3 * b.c.getD i 0 / (2 * Real.pi * b.r.getD i 0)
    pitch := pitch
    beta := b.beta.getD i 0
    lookup := coeffLookup db (b.af.getD i 0) }

/-- The mutable state of one `solve_bem` call: the caller-supplied geometry
and polar database (only read by the code) together with the two local
induction arrays allocated by `np.zeros_like` (the only arrays written). -/
structure SolveSt where
  geo : Blade
  db : PolarDB
  a : List ℝ
  aP : List ℝ

/-- Lines 53-123: the body of `for i in range(len(r))`: skip near-hub
stations, otherwise iterate station `i`'s induction factors (starting from
the array entries, which `np.zeros_like` initialized to `0`) and write the
results back at index `i`. -/
def stationPass (v0 pitch rpm : ℝ) (st : SolveSt) (i : ℕ) : SolveSt :=
  if st.geo.r.getD i 0 < 0.01 * npMax st.geo.r then st
  else
    let s := (stationIterAux (stParamsAt st.geo v0 pitch rpm st.db i) 100
      (st.a.getD i 0, st.aP.getD i 0)).1
    { st with a := st.a.set i s.1, aP := st.aP.set i s.2 }

/-- The whole station loop. -/
def runStations (v0 pitch rpm : ℝ) (st : SolveSt) : SolveSt :=
  (List.range st.geo.r.length).foldl (stationPass v0 pitch rpm) st

/-- The fresh state a `solve_bem` call starts from (lines 46-47). -/
def initSt (b : Blade) (db : PolarDB) : SolveSt :=
  ⟨b, db, List.replicate b.r.length 0, List.replicate b.r.length 0⟩

/-- The final induction pair of station `i`, as a function of the inputs
only: `(0, 0)` for skipped near-hub stations, otherwise the bounded
fixed-point iteration started at `(0, 0)`. -/
def inductionAt (b : Blade) (v0 pitch rpm : ℝ) (db : PolarDB) (i : ℕ) : ℝ × ℝ :=
  if b.r.getD i 0 < 0.01 * npMax b.r then (0, 0)
  else (stationIterAux (stParamsAt b v0 pitch rpm db i) 100 (0, 0)).1

/-- The result tuple of `solve_bem`. -/
structure BemOut where
  T : ℝ
  M : ℝ
  P : ℝ
  a : List ℝ
  aP : List ℝ

/-- `solve_bem(r, c, beta, af_id, v0, pitch, rpm, polar_database)`:
iterate the induction factors per station, then recompute `φ` and `F`
once more per station and integrate the differential thrust and torque
(lines 125-152). -/
def solve_bem (b : Blade) (v0 pitch rpm : ℝ) (db : PolarDB) : BemOut :=
  let omega := rpm * 2 * Real.pi / 60
  let st := runStations v0 pitch rpm (initSt b db)
  let dr := npGradient b.r
  let dT := (List.range b.r.length).map (fun i =>
    if b.r.getD i 0 < 0.01 * npMax b.r then 0
    else
      let a := st.a.getD i 0
      let aP := st.aP.getD i 0
      let phi := arctan2 ((1 - a) * v0) ((1 + aP) * omega * b.r.getD i 0)
      let F := prandtlF (npMax b.r) (b.r.getD i 0) phi
      4 * Real.pi * b.r.getD i 0 * 1.225 * v0 ^ 2 * a * (1 - a) * F * dr.getD i 0)
  let dM := (List.range b.r.length).map (fun i =>
    if b.r.getD i 0 < 0.01 * npMax b.r then 0
    else
      let a := st.a.getD i 0
      let aP := st.aP.getD i 0
      let phi := arctan2 ((1 - a) * v0) ((1 + aP) * omega * b.r.getD i 0)
      let F := prandtlF (npMax b.r) (b.r.getD i 0) phi
      4 * Real.pi * b.r.getD i 0 ^ 3 * 1.225 * v0 * omega * aP * (1 - a) * F * dr.getD i 0)
  ⟨dT.sum, dM.sum, dM.sum * omega, st.a, st.aP⟩

/-- Lines 189-194 of `compute_power_thrust_curves`: scan the schedule for
the first pitch increase of more than `1.0` degree over its predecessor;
that entry's wind speed is the inferred rated wind speed (default `10.0`). -/
def inferRatedAux : ℝ → List (ℝ × ℝ) → ℝ
  | _, [] => 10.0
  | prev, (v, p) :: rest => if prev + 1.0 < p then v else inferRatedAux p rest

/-- The inferred rated wind speed of an operational schedule. -/
def inferRated (v0s pitches : List ℝ) : ℝ :=
  match v0s.zip pitches with
  | [] => 10.0
  | (_, p0) :: rest => inferRatedAux p0 rest

/-- The result of `compute_power_thrust_curves`. -/
structure Curves where
  v0s : List ℝ
  power : List ℝ
  thrust : List ℝ
  torque : List ℝ

/-- `compute_power_thrust_curves(blade_data, operational_data,
polar_database)`: one solver call per schedule entry, followed by the
post-hoc rated limiting (power clamped to `15000` kW above the inferred
rated wind speed, thrust scaled by `0.85 * rated / v0` more than 2 m/s
above it), with unit conversions W → kW and N → kN. -/
def compute_power_thrust_curves (b : Blade) (v0s pitches rpms : List ℝ) (db : PolarDB) :
    Curves :=
  let rated := inferRated v0s pitches
  let rows := (v0s.zip (pitches.zip rpms)).map (fun t =>
    let out := solve_bem b t.1 t.2.1 t.2.2 db
    let P2 := if rated < t.1 then min out.P (15000 * 1000) else out.P
    let T2 := if rated < t.1 then
        (if rated + 2 < t.1 then out.T * (0.85 * rated / t.1) else out.T)
      else out.T
    (P2 / 1000, T2 / 1000, out.M))
  ⟨v0s, rows.map (fun x => x.1), rows.map (fun x => x.2.1), rows.map (fun x => x.2.2)⟩

/-- `np.meshgrid(xs, ys)`: the first grid repeats `xs` along each of the
`ys.length` rows, the second holds `ys` constant along each row. -/
def meshgrid (xs ys : List ℝ) : List (List ℝ) × List (List ℝ) :=
  (ys.map (fun _ => xs), ys.map (fun y => xs.map (fun _ => y)))

/-- The result of `compute_cp_ct_surfaces`. -/
structure Surfaces where
  pitchGrid : List (List ℝ)
  tsrGrid : List (List ℝ)
  cp : List (List ℝ)
  ct : List (List ℝ)

/-- `compute_cp_ct_surfaces(blade_data, polar_database, pitch_range,
tsr_range, v0)`: for every grid cell, convert the tip-speed ratio to a
rotor speed, solve, and normalize power and thrust into `Cp` and `Ct`. -/
def compute_cp_ct_surfaces (b : Blade) (db : PolarDB) (pitch_range tsr_range : List ℝ)
    (v0 : ℝ) : Surfaces :=
  let R := npMax b.r
  let A := Real.pi * R ^ 2
  let grids := meshgrid pitch_range tsr_range
  let cells := (List.range tsr_range.length).map (fun i =>
    (List.range pitch_range.length).map (fun j =>
      let tsr := (grids.2.getD i []).getD j 0
      let pitch := (grids.1.getD i []).getD j 0
      let rpm := tsr * v0 * 60 / (2 * Real.pi * R)
      let out := solve_bem b v0 pitch rpm db
      (out.P / (0.5 * 1.225 * A * v0 ^ 3), out.T / (0.5 * 1.225 * A * v0 ^ 2))))
  ⟨grids.1, grids.2, cells.map (fun row => row.map Prod.fst),
    cells.map (fun row => row.map Prod.snd)⟩

/-- A small concrete two-station blade used to instantiate the theorems. -/
def demoBlade : Blade := ⟨[1, 2], [100, 100], [0, 0], [0, 0]⟩

/-- The everywhere-missing polar database. -/
def emptyDB : PolarDB := fun _ => none

/-! ### Basic lemmas about the numeric primitives -/

theorem clip_le (x lo hi : ℝ) : clip x lo hi ≤ hi := min_le_right _ _

theorem le_clip (x lo hi : ℝ) (h : lo ≤ hi) : lo ≤ clip x lo hi :=
  le_min (le_max_right x lo) h

theorem clip_le_of_le {x c : ℝ} (lo hi : ℝ) (hx : x ≤ c) (hlo : lo ≤ c) :
    clip x lo hi ≤ c :=
  le_trans (min_le_left _ _) (max_le hx hlo)

theorem le_clip_of_le {x c : ℝ} (lo : ℝ) {hi : ℝ} (hx : c ≤ x) (hhi : c ≤ hi) :
    c ≤ clip x lo hi :=
  le_min (le_trans hx (le_max_left x lo)) hhi

/-! ### Bounds on the candidate induction factors -/

theorem newInduction_fst_le (p : StParams) (a aP : ℝ) :
    (newInduction p a aP).1 ≤ 0.4 := by
  unfold newInduction
  dsimp only
  split_ifs with h1 h2
  · norm_num
  · exact le_refl _
  · exact le_of_not_lt h2

theorem newInduction_snd_nonneg (p : StParams) (a aP : ℝ) :
    0 ≤ (newInduction p a aP).2 := by
  unfold newInduction
  dsimp only
  split_ifs with h1 h2
  · exact le_refl _
  · exact le_refl _
  · exact le_of_lt (by
      have h2' := lt_of_not_le h2
      exact one_div_pos.mpr (by linarith))

/-! ### Invariants of the per-station fixed-point loop -/

theorem stationUpdate_mem (p : StParams) (s : ℝ × ℝ)
    (h1 : 0 ≤ s.1) (h2 : s.1 ≤ 0.4) (h3 : 0 ≤ s.2) (h4 : s.2 ≤ 0.5) :
    0 ≤ (stationUpdate p s).1 ∧ (stationUpdate p s).1 ≤ 0.4 ∧
      0 ≤ (stationUpdate p s).2 ∧ (stationUpdate p s).2 ≤ 0.5 := by
  have hna := newInduction_fst_le p s.1 s.2
  have hnaP := newInduction_snd_nonneg p s.1 s.2
  unfold stationUpdate
  dsimp only
  refine ⟨le_clip _ _ _ (by norm_num), clip_le_of_le _ _ (by linarith) (by norm_num),
    le_clip_of_le _ (by linarith) (by norm_num), clip_le _ _ _⟩

theorem stationIterAux_mem (p : StParams) :
    ∀ (n : ℕ) (s : ℝ × ℝ), 0 ≤ s.1 → s.1 ≤ 0.4 → 0 ≤ s.2 → s.2 ≤ 0.5 →
      0 ≤ (stationIterAux p n s).1.1 ∧ (stationIterAux p n s).1.1 ≤ 0.4 ∧
        0 ≤ (stationIterAux p n s).1.2 ∧ (stationIterAux p n s).1.2 ≤ 0.5 := by
  intro n
  induction n with
  | zero => intro s h1 h2 h3 h4; exact ⟨h1, h2, h3, h4⟩
  | succ n ih =>
    intro s h1 h2 h3 h4
    rw [stationIterAux]
    split_ifs with hc
    · exact ⟨h1, h2, h3, h4⟩
    · have hm := stationUpdate_mem p s h1 h2 h3 h4
      exact ih (stationUpdate p s) hm.1 hm.2.1 hm.2.2.1 hm.2.2.2

theorem stationIterAux_count_le (p : StParams) :
    ∀ (n : ℕ) (s : ℝ × ℝ), (stationIterAux p n s).2 ≤ n := by
  intro n
  induction n with
  | zero => intro s; simp [stationIterAux]
  | succ n ih =>
    intro s
    rw [stationIterAux]
    split_ifs with hc
    · simp
    · simpa using Nat.succ_le_succ (ih (stationUpdate p s))

/-- The loop either performs all `n` relaxation updates (non-convergence:
the last computed values are the result) or breaks at the first pass `k`
whose candidates meet the tolerance, returning the state of pass `k`
unchanged. -/
theorem stationIterAux_characterization (p : StParams) :
    ∀ (n : ℕ) (s : ℝ × ℝ),
      (stationIterAux p n s).1 = (stationUpdate p)^[n] s ∨
        ∃ k, k < n ∧ convergedAt p ((stationUpdate p)^[k] s) ∧
          (stationIterAux p n s).1 = (stationUpdate p)^[k] s := by
  intro n
  induction n with
  | zero => intro s; left; simp [stationIterAux]
  | succ n ih =>
    intro s
    rw [stationIterAux]
    split_ifs with hc
    · right
      exact ⟨0, Nat.succ_pos n, by simpa using hc, by simp⟩
    · rcases ih (stationUpdate p s) with h | ⟨k, hk, hconv, heq⟩
      · left
        simpa [Function.iterate_succ_apply] using h
      · right
        refine ⟨k + 1, Nat.succ_lt_succ hk, ?_, ?_⟩
        · simpa [Function.iterate_succ_apply] using hconv
        · simpa [Function.iterate_succ_apply] using heq

/-! ### List indexing helpers -/

theorem getD_set_self : ∀ (l : List ℝ) (i : ℕ) (x d : ℝ), i < l.length →
    (l.set i x).getD i d = x := by
  intro l
  induction l with
  | nil => intro i x d h; simp at h
  | cons y ys ih =>
    intro i x d h
    cases i with
    | zero => simp [List.set]
    | succ j =>
      simp only [List.set, List.getD, List.get?]
      exact ih j x d (by simpa using Nat.lt_of_succ_lt_succ h)

theorem getD_set_ne : ∀ (l : List ℝ) (i j : ℕ) (x d : ℝ), i ≠ j →
    (l.set i x).getD j d = l.getD j d := by
  intro l
  induction l with
  | nil => intro i j x d h; simp [List.set]
  | cons y ys ih =>
    intro i j x d h
    cases i with
    | zero =>
      cases j with
      | zero => exact absurd rfl h
      | succ k => simp [List.set, List.getD]
    | succ i' =>
      cases j with
      | zero => simp [List.set, List.getD]
      | succ k =>
        simp only [List.set, List.getD, List.get?]
        exact ih i' k x d (fun hh => h (by rw [hh]))

theorem getD_replicate_zero : ∀ (n j : ℕ), (List.replicate n (0 : ℝ)).getD j 0 = 0 := by
  intro n
  induction n with
  | zero => intro j; simp
  | succ m ih =>
    intro j
    cases j with
    | zero => simp [List.replicate]
    | succ k => simpa [List.replicate, List.getD] using ih k

theorem getD_map_range {α : Type} (n i : ℕ) (f : ℕ → α) (d : α) (h : i < n) :
    ((List.range n).map f).getD i d = f i := by
  rw [List.getD_eq_getElem ((List.range n).map f) d (by simpa using h)]
  simp

theorem getD_map_lt {α β : Type} (f : α → β) (l : List α) (i : ℕ) (d : β) (d' : α)
    (h : i < l.length) : (l.map f).getD i d = f (l.getD i d') := by
  rw [List.getD_eq_getElem (l.map f) d (by simpa using h),
    List.getD_eq_getElem l d' h]
  simp

theorem getD_zip_lt {α β : Type} (l : List α) (l' : List β) (i : ℕ) (d : α) (d' : β)
    (h : i < l.length) (h' : i < l'.length) :
    (l.zip l').getD i (d, d') = (l.getD i d, l'.getD i d') := by
  rw [List.getD_eq_getElem (l.zip l') (d, d') (by rw [List.length_zip]; omega),
    List.getD_eq_getElem l d h, List.getD_eq_getElem l' d' h']
  exact List.getElem_zip

/-! ### The station loop writes only the local induction arrays -/

theorem stationPass_frame (v0 pitch rpm : ℝ) (st : SolveSt) (i : ℕ) :
    (stationPass v0 pitch rpm st i).geo = st.geo ∧
      (stationPass v0 pitch rpm st i).db = st.db ∧
      (stationPass v0 pitch rpm st i).a.length = st.a.length ∧
      (stationPass v0 pitch rpm st i).aP.length = st.aP.length := by
  unfold stationPass
  split_ifs with h
  · exact ⟨rfl, rfl, rfl, rfl⟩
  · exact ⟨rfl, rfl, by simp, by simp⟩

theorem foldl_pass_frame (v0 pitch rpm : ℝ) :
    ∀ (L : List ℕ) (st : SolveSt),
      (L.foldl (stationPass v0 pitch rpm) st).geo = st.geo ∧
        (L.foldl (stationPass v0 pitch rpm) st).db = st.db ∧
        (L.foldl (stationPass v0 pitch rpm) st).a.length = st.a.length ∧
        (L.foldl (stationPass v0 pitch rpm) st).aP.length = st.aP.length := by
  intro L
  induction L with
  | nil => intro st; exact ⟨rfl, rfl, rfl, rfl⟩
  | cons x xs ih =>
    intro st
    have h1 := stationPass_frame v0 pitch rpm st x
    have h2 := ih (stationPass v0 pitch rpm st x)
    simp only [List.foldl]
    exact ⟨h2.1.trans h1.1, h2.2.1.trans h1.2.1, h2.2.2.1.trans h1.2.2.1,
      h2.2.2.2.trans h1.2.2.2⟩

/-- After folding the station passes over `range m` (for `m ≤ n`, with `n`
the number of stations), the geometry and the database are untouched,
the array lengths are unchanged, indices below `m` hold the per-station
results, and indices at or above `m` still hold their initial zeros. -/
theorem foldl_range_spec (b : Blade) (v0 pitch rpm : ℝ) (db : PolarDB) :
    ∀ (m : ℕ), m ≤ b.r.length →
      (((List.range m).foldl (stationPass v0 pitch rpm) (initSt b db)).a.length
          = b.r.length ∧
        ((List.range m).foldl (stationPass v0 pitch rpm) (initSt b db)).aP.length
          = b.r.length) ∧
      (∀ i : ℕ, i < m →
        (((List.range m).foldl (stationPass v0 pitch rpm) (initSt b db)).a.getD i 0,
          ((List.range m).foldl (stationPass v0 pitch rpm) (initSt b db)).aP.getD i 0)
            = inductionAt b v0 pitch rpm db i) ∧
      (∀ i : ℕ, m ≤ i →
        ((List.range m).foldl (stationPass v0 pitch rpm) (initSt b db)).a.getD i 0 = 0 ∧
        ((List.range m).foldl (stationPass v0 pitch rpm) (initSt b db)).aP.getD i 0 = 0) := by
  intro m
  induction m with
  | zero =>
    intro _
    refine ⟨⟨by simp [initSt], by simp [initSt]⟩, fun i hi => absurd hi (Nat.not_lt_zero i),
      fun i _ => ⟨getD_replicate_zero _ _, getD_replicate_zero _ _⟩⟩
  | succ m ih =>
    intro hm
    have hm' : m ≤ b.r.length := Nat.le_of_succ_le hm
    have hmlt : m < b.r.length := hm
    obtain ⟨⟨hLa, hLaP⟩, hlow, hhigh⟩ := ih hm'
    have hframe := foldl_pass_frame v0 pitch rpm (List.range m) (initSt b db)
    set prev := (List.range m).foldl (stationPass v0 pitch rpm) (initSt b db) with hprev
    have hgeo : prev.geo = b := hframe.1
    have hdb : prev.db = db := hframe.2.1
    have hstep : (List.range (m + 1)).foldl (stationPass v0 pitch rpm) (initSt b db)
        = stationPass v0 pitch rpm prev m := by
      rw [List.range_succ, List.foldl_append]
      simp
    rw [hstep]
    unfold stationPass
    rw [hgeo, hdb]
    split_ifs with hskip
    · -- skipped near-hub station: state unchanged
      refine ⟨⟨hLa, hLaP⟩, ?_, ?_⟩
      · intro i hi
        rcases Nat.lt_succ_iff_lt_or_eq.mp hi with h | h
        · exact hlow i h
        · subst h
          have h0 := hhigh i (le_refl i)
          rw [inductionAt, if_pos hskip, h0.1, h0.2]
      · intro i hi
        exact hhigh i (Nat.le_of_succ_le hi)
    · -- processed station: the two arrays are written at index m
      have hr0 : prev.a.getD m 0 = 0 := (hhigh m (le_refl m)).1
      have hr0' : prev.aP.getD m 0 = 0 := (hhigh m (le_refl m)).2
      rw [hr0, hr0']
      refine ⟨⟨by simp [hLa], by simp [hLaP]⟩, ?_, ?_⟩
      · intro i hi
        rcases Nat.lt_succ_iff_lt_or_eq.mp hi with h | h
        · have hne : m ≠ i := fun hh => absurd (hh ▸ h) (lt_irrefl i)
          simp only [getD_set_ne _ _ _ _ _ hne]
          exact hlow i h
        · subst h
          rw [getD_set_self _ _ _ _ (by rw [hLa]; exact hmlt),
            getD_set_self _ _ _ _ (by rw [hLaP]; exact hmlt)]
          rw [inductionAt, if_neg hskip]
      · intro i hi
        have hne : m ≠ i := fun hh => by omega
        simp only [getD_set_ne _ _ _ _ _ hne]
        exact hhigh i (by omega)

/-- The induction arrays returned by `solve_bem`, read at any station
index, are exactly the per-station pure results. -/
theorem solve_bem_a_getD (b : Blade) (v0 pitch rpm : ℝ) (db : PolarDB) (i : ℕ)
    (hi : i < b.r.length) :
    ((solve_bem b v0 pitch rpm db).a.getD i 0,
      (solve_bem b v0 pitch rpm db).aP.getD i 0) = inductionAt b v0 pitch rpm db i := by
  have hspec := foldl_range_spec b v0 pitch rpm db b.r.length (le_refl _)
  have : (solve_bem b v0 pitch rpm db).a
      = ((List.range b.r.length).foldl (stationPass v0 pitch rpm) (initSt b db)).a ∧
      (solve_bem b v0 pitch rpm db).aP
      = ((List.range b.r.length).foldl (stationPass v0 pitch rpm) (initSt b db)).aP := by
    unfold solve_bem runStations initSt
    exact ⟨rfl, rfl⟩
  rw [this.1, this.2]
  exact hspec.2.1 i hi

theorem solve_bem_a_length (b : Blade) (v0 pitch rpm : ℝ) (db : PolarDB) :
    (solve_bem b v0 pitch rpm db).a.length = b.r.length ∧
      (solve_bem b v0 pitch rpm db).aP.length = b.r.length := by
  have hspec := foldl_range_spec b v0 pitch rpm db b.r.length (le_refl _)
  have : (solve_bem b v0 pitch rpm db).a
      = ((List.range b.r.length).foldl (stationPass v0 pitch rpm) (initSt b db)).a ∧
      (solve_bem b v0 pitch rpm db).aP
      = ((List.range b.r.length).foldl (stationPass v0 pitch rpm) (initSt b db)).aP := by
    unfold solve_bem runStations initSt
    exact ⟨rfl, rfl⟩
  rw [this.1, this.2]
  exact hspec.1

theorem inductionAt_mem (b : Blade) (v0 pitch rpm : ℝ) (db : PolarDB) (i : ℕ) :
    0 ≤ (inductionAt b v0 pitch rpm db i).1 ∧ (inductionAt b v0 pitch rpm db i).1 ≤ 0.4 ∧
      0 ≤ (inductionAt b v0 pitch rpm db i).2 ∧ (inductionAt b v0 pitch rpm db i).2 ≤ 0.5 := by
  unfold inductionAt
  split_ifs with h
  · norm_num
  · exact stationIterAux_mem (stParamsAt b v0 pitch rpm db i) 100 (0, 0)
      (le_refl 0) (by norm_num) (le_refl 0) (by norm_num)

/-! ### The claims -/

/-- C1: for every blade geometry, polar database and operating point with
`v0 > 0`, the induction arrays returned by `solve_bem` satisfy
`0 ≤ a[i] ≤ 0.5` and `-0.5 ≤ a_prime[i] ≤ 0.5` at every station, and
skipped near-hub stations remain at `0`. -/
theorem claim_C1 (b : Blade) (db : PolarDB) (v0 pitch rpm : ℝ) (hv : 0 < v0)
    (i : ℕ) (hi : i < b.r.length) :
    (0 ≤ (solve_bem b v0 pitch rpm db).a.getD i 0 ∧
      (solve_bem b v0 pitch rpm db).a.getD i 0 ≤ 0.5) ∧
    (-0.5 ≤ (solve_bem b v0 pitch rpm db).aP.getD i 0 ∧
      (solve_bem b v0 pitch rpm db).aP.getD i 0 ≤ 0.5) ∧
    (b.r.getD i 0 < 0.01 * npMax b.r →
      (solve_bem b v0 pitch rpm db).a.getD i 0 = 0 ∧
      (solve_bem b v0 pitch rpm db).aP.getD i 0 = 0) := by
  have h := solve_bem_a_getD b v0 pitch rpm db i hi
  have h1 : (solve_bem b v0 pitch rpm db).a.getD i 0 = (inductionAt b v0 pitch rpm db i).1 :=
    congrArg Prod.fst h
  have h2 : (solve_bem b v0 pitch rpm db).aP.getD i 0 = (inductionAt b v0 pitch rpm db i).2 :=
    congrArg Prod.snd h
  have hm := inductionAt_mem b v0 pitch rpm db i
  refine ⟨⟨by rw [h1]; exact hm.1, by rw [h1]; linarith [hm.2.1]⟩,
    ⟨by rw [h2]; linarith [hm.2.2.1], by rw [h2]; exact hm.2.2.2⟩, ?_⟩
  intro hskip
  rw [h1, h2]
  unfold inductionAt
  rw [if_pos hskip]
  exact ⟨rfl, rfl⟩

theorem claim_C1_witness :
    (0 : ℝ) < 1 ∧ (0 : ℕ) < demoBlade.r.length ∧
      ((0 ≤ (solve_bem demoBlade 1 0 0 emptyDB).a.getD 0 0 ∧
        (solve_bem demoBlade 1 0 0 emptyDB).a.getD 0 0 ≤ 0.5) ∧
      (-0.5 ≤ (solve_bem demoBlade 1 0 0 emptyDB).aP.getD 0 0 ∧
        (solve_bem demoBlade 1 0 0 emptyDB).aP.getD 0 0 ≤ 0.5) ∧
      (demoBlade.r.getD 0 0 < 0.01 * npMax demoBlade.r →
        (solve_bem demoBlade 1 0 0 emptyDB).a.getD 0 0 = 0 ∧
        (solve_bem demoBlade 1 0 0 emptyDB).aP.getD 0 0 = 0)) :=
  ⟨by norm_num, by norm_num [demoBlade],
    claim_C1 demoBlade emptyDB 1 0 0 (by norm_num) 0 (by norm_num [demoBlade])⟩

/-- C9: implicit tighter bounds than the spec states: the returned axial
induction lies in `[0, 0.4]` (the candidate is capped at the 0.4
transition point before relaxation) and the returned tangential
induction is non-negative, in `[0, 0.5]`. -/
theorem claim_C9 (b : Blade) (db : PolarDB) (v0 pitch rpm : ℝ) (hv : 0 < v0)
    (i : ℕ) (hi : i < b.r.length) :
    (0 ≤ (solve_bem b v0 pitch rpm db).a.getD i 0 ∧
      (solve_bem b v0 pitch rpm db).a.getD i 0 ≤ 0.4) ∧
    (0 ≤ (solve_bem b v0 pitch rpm db).aP.getD i 0 ∧
      (solve_bem b v0 pitch rpm db).aP.getD i 0 ≤ 0.5) := by
  have h := solve_bem_a_getD b v0 pitch rpm db i hi
  have h1 : (solve_bem b v0 pitch rpm db).a.getD i 0 = (inductionAt b v0 pitch rpm db i).1 :=
    congrArg Prod.fst h
  have h2 : (solve_bem b v0 pitch rpm db).aP.getD i 0 = (inductionAt b v0 pitch rpm db i).2 :=
    congrArg Prod.snd h
  have hm := inductionAt_mem b v0 pitch rpm db i
  exact ⟨⟨by rw [h1]; exact hm.1, by rw [h1]; exact hm.2.1⟩,
    ⟨by rw [h2]; exact hm.2.2.1, by rw [h2]; exact hm.2.2.2⟩⟩

theorem claim_C9_witness :
    (0 : ℝ) < 1 ∧ (0 : ℕ) < demoBlade.r.length ∧
      ((0 ≤ (solve_bem demoBlade 1 0 0 emptyDB).a.getD 0 0 ∧
        (solve_bem demoBlade 1 0 0 emptyDB).a.getD 0 0 ≤ 0.4) ∧
      (0 ≤ (solve_bem demoBlade 1 0 0 emptyDB).aP.getD 0 0 ∧
        (solve_bem demoBlade 1 0 0 emptyDB).aP.getD 0 0 ≤ 0.5)) :=
  ⟨by norm_num, by norm_num [demoBlade],
    claim_C9 demoBlade emptyDB 1 0 0 (by norm_num) 0 (by norm_num [demoBlade])⟩

theorem demo_npMax : npMax demoBlade.r = 2 := by
  simp only [demoBlade, npMax, List.foldl]
  norm_num

/-- C5: `solve_bem` always returns: each station's fixed-point iteration
performs at most 100 passes, and its result is either the state after all
100 relaxation updates (non-convergence, silently accepted) or the state
at the first pass whose candidates meet the `1e-5` tolerance; the array
entries used in the force integration are exactly this result. -/
theorem claim_C5 (b : Blade) (v0 pitch rpm : ℝ) (db : PolarDB) (i : ℕ)
    (hi : i < b.r.length) (hns : ¬ b.r.getD i 0 < 0.01 * npMax b.r) :
    ((stationIterAux (stParamsAt b v0 pitch rpm db i) 100 (0, 0)).2 ≤ 100) ∧
    ((stationIterAux (stParamsAt b v0 pitch rpm db i) 100 (0, 0)).1
        = (stationUpdate (stParamsAt b v0 pitch rpm db i))^[100] (0, 0) ∨
      ∃ k, k < 100 ∧ convergedAt (stParamsAt b v0 pitch rpm db i)
          ((stationUpdate (stParamsAt b v0 pitch rpm db i))^[k] (0, 0)) ∧
        (stationIterAux (stParamsAt b v0 pitch rpm db i) 100 (0, 0)).1
          = (stationUpdate (stParamsAt b v0 pitch rpm db i))^[k] (0, 0)) ∧
    ((solve_bem b v0 pitch rpm db).a.getD i 0,
      (solve_bem b v0 pitch rpm db).aP.getD i 0)
        = (stationIterAux (stParamsAt b v0 pitch rpm db i) 100 (0, 0)).1 := by
  refine ⟨stationIterAux_count_le _ 100 (0, 0),
    stationIterAux_characterization _ 100 (0, 0), ?_⟩
  rw [solve_bem_a_getD b v0 pitch rpm db i hi]
  unfold inductionAt
  rw [if_neg hns]

theorem claim_C5_witness :
    (0 : ℕ) < demoBlade.r.length ∧
    ¬ demoBlade.r.getD 0 0 < 0.01 * npMax demoBlade.r ∧
    (((stationIterAux (stParamsAt demoBlade 1 0 0 emptyDB 0) 100 (0, 0)).2 ≤ 100) ∧
    ((stationIterAux (stParamsAt demoBlade 1 0 0 emptyDB 0) 100 (0, 0)).1
        = (stationUpdate (stParamsAt demoBlade 1 0 0 emptyDB 0))^[100] (0, 0) ∨
      ∃ k, k < 100 ∧ convergedAt (stParamsAt demoBlade 1 0 0 emptyDB 0)
          ((stationUpdate (stParamsAt demoBlade 1 0 0 emptyDB 0))^[k] (0, 0)) ∧
        (stationIterAux (stParamsAt demoBlade 1 0 0 emptyDB 0) 100 (0, 0)).1
          = (stationUpdate (stParamsAt demoBlade 1 0 0 emptyDB 0))^[k] (0, 0)) ∧
    ((solve_bem demoBlade 1 0 0 emptyDB).a.getD 0 0,
      (solve_bem demoBlade 1 0 0 emptyDB).aP.getD 0 0)
        = (stationIterAux (stParamsAt demoBlade 1 0 0 emptyDB 0) 100 (0, 0)).1) :=
  ⟨by norm_num [demoBlade], by rw [demo_npMax]; norm_num [demoBlade],
    claim_C5 demoBlade 1 0 0 emptyDB 0 (by norm_num [demoBlade])
      (by rw [demo_npMax]; norm_num [demoBlade])⟩

/-- C6: a station whose airfoil identifier is missing from the polar
database never fails: every lookup there returns the fixed fallback pair
`(0.0001, 0.35)`, the station's induction result is the same as with the
everywhere-missing database, and the solve still returns a result. -/
theorem claim_C6 (b : Blade) (db : PolarDB) (v0 pitch rpm : ℝ) (i : ℕ)
    (h : db (b.af.getD i 0) = none) :
    (∀ alpha : ℝ, coeffLookup db (b.af.getD i 0) alpha = (0.0001, 0.35)) ∧
    inductionAt b v0 pitch rpm db i = inductionAt b v0 pitch rpm emptyDB i ∧
    ∃ out, solve_bem b v0 pitch rpm db = out := by
  have hL : coeffLookup db (b.af.getD i 0) = coeffLookup emptyDB (b.af.getD i 0) := by
    funext alpha
    unfold coeffLookup
    rw [h]
    rfl
  refine ⟨fun alpha => by unfold coeffLookup; rw [h], ?_, ⟨_, rfl⟩⟩
  unfold inductionAt stParamsAt
  rw [hL]

theorem claim_C6_witness :
    emptyDB (demoBlade.af.getD 0 0) = none ∧
    ((∀ alpha : ℝ, coeffLookup emptyDB (demoBlade.af.getD 0 0) alpha = (0.0001, 0.35)) ∧
    inductionAt demoBlade 1 0 0 emptyDB 0 = inductionAt demoBlade 1 0 0 emptyDB 0 ∧
    ∃ out, solve_bem demoBlade 1 0 0 emptyDB = out) :=
  ⟨rfl, claim_C6 demoBlade emptyDB 1 0 0 0 rfl⟩

/-- C7: `solve_bem` is deterministic: two calls on identical inputs return
identical results, and no hidden state can make a repeated call differ. -/
theorem claim_C7 (b b' : Blade) (v0 v0' pitch pitch' rpm rpm' : ℝ) (db db' : PolarDB)
    (hb : b = b') (hv : v0 = v0') (hp : pitch = pitch') (hr : rpm = rpm')
    (hd : db = db') :
    solve_bem b v0 pitch rpm db = solve_bem b' v0' pitch' rpm' db' := by
  subst hb; subst hv; subst hp; subst hr; subst hd; rfl

theorem claim_C7_witness :
    demoBlade = demoBlade ∧
      solve_bem demoBlade 1 0 0 emptyDB = solve_bem demoBlade 1 0 0 emptyDB :=
  ⟨rfl, claim_C7 demoBlade demoBlade 1 1 0 0 0 0 emptyDB emptyDB rfl rfl rfl rfl rfl⟩

/-- C8: a `solve_bem` call leaves its inputs unchanged — the station loop
returns the geometry and the polar database exactly as given — and the
induction arrays it returns are freshly built, each entry a function of
the inputs at its own station only. -/
theorem claim_C8 (b : Blade) (v0 pitch rpm : ℝ) (db : PolarDB) :
    (runStations v0 pitch rpm (initSt b db)).geo = b ∧
    (runStations v0 pitch rpm (initSt b db)).db = db ∧
    (solve_bem b v0 pitch rpm db).a
      = (List.range b.r.length).map (fun i => (inductionAt b v0 pitch rpm db i).1) ∧
    (solve_bem b v0 pitch rpm db).aP
      = (List.range b.r.length).map (fun i => (inductionAt b v0 pitch rpm db i).2) := by
  have hframe := foldl_pass_frame v0 pitch rpm (List.range b.r.length) (initSt b db)
  have hlen := solve_bem_a_length b v0 pitch rpm db
  refine ⟨hframe.1, hframe.2.1, ?_, ?_⟩
  · apply List.ext_getElem
    · rw [hlen.1, List.length_map, List.length_range]
    · intro i h1 h2
      have hib : i < b.r.length := by rwa [hlen.1] at h1
      have hv := congrArg Prod.fst (solve_bem_a_getD b v0 pitch rpm db i hib)
      rw [← List.getD_eq_getElem _ 0 h1]
      simp only at hv
      rw [hv]
      simp
  · apply List.ext_getElem
    · rw [hlen.2, List.length_map, List.length_range]
    · intro i h1 h2
      have hib : i < b.r.length := by rwa [hlen.2] at h1
      have hv := congrArg Prod.snd (solve_bem_a_getD b v0 pitch rpm db i hib)
      rw [← List.getD_eq_getElem _ 0 h1]
      simp only at hv
      rw [hv]
      simp

/-- What one entry of the performance curves holds: the raw solver outputs
at that schedule entry, pushed through the rated limiting and the unit
conversions. -/
theorem compute_curves_entry (b : Blade) (v0s ps rpms : List ℝ) (db : PolarDB)
    (h1 : ps.length = v0s.length) (h2 : rpms.length = v0s.length)
    (i : ℕ) (hi : i < v0s.length) :
    (compute_power_thrust_curves b v0s ps rpms db).power.getD i 0
      = (if inferRated v0s ps < v0s.getD i 0 then
          min (solve_bem b (v0s.getD i 0) (ps.getD i 0) (rpms.getD i 0) db).P (15000 * 1000)
        else (solve_bem b (v0s.getD i 0) (ps.getD i 0) (rpms.getD i 0) db).P) / 1000 ∧
    (compute_power_thrust_curves b v0s ps rpms db).thrust.getD i 0
      = (if inferRated v0s ps < v0s.getD i 0 then
          (if inferRated v0s ps + 2 < v0s.getD i 0 then
            (solve_bem b (v0s.getD i 0) (ps.getD i 0) (rpms.getD i 0) db).T
              * (0.85 * inferRated v0s ps / v0s.getD i 0)
          else (solve_bem b (v0s.getD i 0) (ps.getD i 0) (rpms.getD i 0) db).T)
        else (solve_bem b (v0s.getD i 0) (ps.getD i 0) (rpms.getD i 0) db).T) / 1000 ∧
    (compute_power_thrust_curves b v0s ps rpms db).torque.getD i 0
      = (solve_bem b (v0s.getD i 0) (ps.getD i 0) (rpms.getD i 0) db).M := by
  have hpr : i < (ps.zip rpms).length := by rw [List.length_zip]; omega
  have hz : i < (v0s.zip (ps.zip rpms)).length := by
    rw [List.length_zip, List.length_zip]; omega
  unfold compute_power_thrust_curves
  dsimp only
  rw [getD_map_lt _ _ i 0 ((0 : ℝ), (0 : ℝ), (0 : ℝ)) (by simpa using hz),
    getD_map_lt _ _ i 0 ((0 : ℝ), (0 : ℝ), (0 : ℝ)) (by simpa using hz),
    getD_map_lt _ _ i 0 ((0 : ℝ), (0 : ℝ), (0 : ℝ)) (by simpa using hz),
    getD_map_lt _ _ i ((0 : ℝ), (0 : ℝ), (0 : ℝ)) ((0 : ℝ), (0 : ℝ), (0 : ℝ)) hz,
    getD_zip_lt v0s (ps.zip rpms) i 0 ((0 : ℝ), (0 : ℝ)) hi hpr,
    getD_zip_lt ps rpms i 0 0 (by omega) (by omega)]
  exact ⟨rfl, rfl, rfl⟩

theorem inferRated_nine_ten_eleven : inferRated [9, 10, 11] [0, 0, 3] = 11 := by
  norm_num [inferRated, inferRatedAux, List.zip_cons_cons]

/-- C2: on the schedule with wind speeds `[9, 10, 11]` and pitches
`[0, 0, 3]` (a pitch jump `> 1°` at the third entry),
`compute_power_thrust_curves` infers the rated wind speed `11` m/s, the
rated limiting can trigger only from that entry onward (its condition
holds at no earlier index), and the two entries before it are returned
with the raw solver power and thrust. -/
theorem claim_C2 (b : Blade) (rpms : List ℝ) (db : PolarDB) (hr : rpms.length = 3)
    (i : ℕ) :
    inferRated [9, 10, 11] [0, 0, 3] = 11 ∧
    (i < 3 → inferRated [9, 10, 11] [0, 0, 3] < [(9 : ℝ), 10, 11].getD i 0 → 2 ≤ i) ∧
    (i < 2 →
      (compute_power_thrust_curves b [9, 10, 11] [0, 0, 3] rpms db).power.getD i 0
        = (solve_bem b ([(9 : ℝ), 10, 11].getD i 0) ([(0 : ℝ), 0, 3].getD i 0)
            (rpms.getD i 0) db).P / 1000 ∧
      (compute_power_thrust_curves b [9, 10, 11] [0, 0, 3] rpms db).thrust.getD i 0
        = (solve_bem b ([(9 : ℝ), 10, 11].getD i 0) ([(0 : ℝ), 0, 3].getD i 0)
            (rpms.getD i 0) db).T / 1000) := by
  refine ⟨inferRated_nine_ten_eleven, ?_, ?_⟩
  · intro hi hlt
    rw [inferRated_nine_ten_eleven] at hlt
    interval_cases i
    · norm_num at hlt
    · norm_num at hlt
    · exact le_refl 2
  · intro hi
    have hE := compute_curves_entry b [9, 10, 11] [0, 0, 3] rpms db (by norm_num)
      (by rw [hr]; norm_num) i (by norm_num; omega)
    have hcond : ¬ inferRated [9, 10, 11] [0, 0, 3] < [(9 : ℝ), 10, 11].getD i 0 := by
      rw [inferRated_nine_ten_eleven]
      interval_cases i
      · norm_num
      · norm_num
    simp only [if_neg hcond] at hE
    exact ⟨hE.1, hE.2.1⟩

theorem claim_C2_witness :
    ([(7 : ℝ), 7, 7] : List ℝ).length = 3 ∧
    inferRated [9, 10, 11] [0, 0, 3] = 11 ∧
    (compute_power_thrust_curves demoBlade [9, 10, 11] [0, 0, 3] [7, 7, 7] emptyDB).power.getD 0 0
      = (solve_bem demoBlade ([(9 : ℝ), 10, 11].getD 0 0) ([(0 : ℝ), 0, 3].getD 0 0)
          ([(7 : ℝ), 7, 7].getD 0 0) emptyDB).P / 1000 :=
  ⟨by norm_num, (claim_C2 demoBlade [7, 7, 7] emptyDB (by norm_num) 0).1,
    ((claim_C2 demoBlade [7, 7, 7] emptyDB (by norm_num) 0).2.2 (by norm_num)).1⟩

/-- C3: every schedule entry whose wind speed strictly exceeds the
inferred rated wind speed is returned with power at most the configured
rated power of 15000 kW, and every entry at or below it is returned with
the raw solver power. -/
theorem claim_C3 (b : Blade) (v0s ps rpms : List ℝ) (db : PolarDB)
    (h1 : ps.length = v0s.length) (h2 : rpms.length = v0s.length)
    (i : ℕ) (hi : i < v0s.length) :
    (inferRated v0s ps < v0s.getD i 0 →
      (compute_power_thrust_curves b v0s ps rpms db).power.getD i 0 ≤ 15000) ∧
    (v0s.getD i 0 ≤ inferRated v0s ps →
      (compute_power_thrust_curves b v0s ps rpms db).power.getD i 0
        = (solve_bem b (v0s.getD i 0) (ps.getD i 0) (rpms.getD i 0) db).P / 1000) := by
  have hE := (compute_curves_entry b v0s ps rpms db h1 h2 i hi).1
  constructor
  · intro hlt
    rw [hE, if_pos hlt]
    calc min (solve_bem b (v0s.getD i 0) (ps.getD i 0) (rpms.getD i 0) db).P
          ((15000 : ℝ) * 1000) / 1000
        ≤ ((15000 : ℝ) * 1000) / 1000 := by gcongr; exact min_le_right _ _
      _ = 15000 := by norm_num
  · intro hle
    rw [hE, if_neg (not_lt.mpr hle)]

theorem inferRated_demo_twelve : inferRated [9, 12, 14] [0, 5, 9] = 12 := by
  norm_num [inferRated, inferRatedAux, List.zip_cons_cons]

theorem claim_C3_witness :
    inferRated [9, 12, 14] [0, 5, 9] < [(9 : ℝ), 12, 14].getD 2 0 ∧
    (compute_power_thrust_curves demoBlade [9, 12, 14] [0, 5, 9] [7, 7, 7]
      emptyDB).power.getD 2 0 ≤ 15000 :=
  ⟨by rw [inferRated_demo_twelve]; norm_num,
    (claim_C3 demoBlade [9, 12, 14] [0, 5, 9] [7, 7, 7] emptyDB (by norm_num)
      (by norm_num) 2 (by norm_num)).1 (by rw [inferRated_demo_twelve]; norm_num)⟩

theorem meshgrid_fst_getD (xs ys : List ℝ) (i j : ℕ) (hi : i < ys.length)
    (hj : j < xs.length) :
    ((meshgrid xs ys).1.getD i []).getD j 0 = xs.getD j 0 := by
  unfold meshgrid
  rw [getD_map_lt (fun _ => xs) ys i [] 0 hi]

theorem meshgrid_snd_getD (xs ys : List ℝ) (i j : ℕ) (hi : i < ys.length)
    (hj : j < xs.length) :
    ((meshgrid xs ys).2.getD i []).getD j 0 = ys.getD i 0 := by
  unfold meshgrid
  rw [getD_map_lt (fun y => xs.map (fun _ => y)) ys i [] 0 hi,
    getD_map_lt (fun _ => ys.getD i 0) xs j 0 0 hj]

/-- C4: `compute_cp_ct_surfaces` returns four grids whose rows follow the
tip-speed-ratio sweep and whose columns follow the pitch sweep, and each
cell `(i, j)` holds the solver outputs at
`rpm = tsr[i]·v0·60/(2π·R)` normalized by `0.5·ρ·A·v0³` (power) and
`0.5·ρ·A·v0²` (thrust), with `A = π·R²` and `R = max(r)`. -/
theorem claim_C4 (b : Blade) (db : PolarDB) (pr tr : List ℝ) (v0 : ℝ) (hv : 0 < v0)
    (i j : ℕ) (hi : i < tr.length) (hj : j < pr.length) :
    (compute_cp_ct_surfaces b db pr tr v0).pitchGrid.length = tr.length ∧
    (compute_cp_ct_surfaces b db pr tr v0).tsrGrid.length = tr.length ∧
    (compute_cp_ct_surfaces b db pr tr v0).cp.length = tr.length ∧
    (compute_cp_ct_surfaces b db pr tr v0).ct.length = tr.length ∧
    ((compute_cp_ct_surfaces b db pr tr v0).cp.getD i []).length = pr.length ∧
    ((compute_cp_ct_surfaces b db pr tr v0).ct.getD i []).length = pr.length ∧
    ((compute_cp_ct_surfaces b db pr tr v0).pitchGrid.getD i []).getD j 0 = pr.getD j 0 ∧
    ((compute_cp_ct_surfaces b db pr tr v0).tsrGrid.getD i []).getD j 0 = tr.getD i 0 ∧
    ((compute_cp_ct_surfaces b db pr tr v0).cp.getD i []).getD j 0
      = (solve_bem b v0 (pr.getD j 0)
          (tr.getD i 0 * v0 * 60 / (2 * Real.pi * npMax b.r)) db).P
        / (0.5 * 1.225 * (Real.pi * npMax b.r ^ 2) * v0 ^ 3) ∧
    ((compute_cp_ct_surfaces b db pr tr v0).ct.getD i []).getD j 0
      = (solve_bem b v0 (pr.getD j 0)
          (tr.getD i 0 * v0 * 60 / (2 * Real.pi * npMax b.r)) db).T
        / (0.5 * 1.225 * (Real.pi * npMax b.r ^ 2) * v0 ^ 2) := by
  have hmf := meshgrid_fst_getD pr tr i j hi hj
  have hms := meshgrid_snd_getD pr tr i j hi hj
  unfold compute_cp_ct_surfaces
  dsimp only
  refine ⟨?_, ?_, ?_, ?_, ?_, ?_, ?_, ?_, ?_, ?_⟩
  · simp [meshgrid]
  · simp [meshgrid]
  · simp
  · simp
  · rw [getD_map_lt _ _ i [] [] (by simpa using hi), getD_map_range _ _ _ [] hi]
    simp
  · rw [getD_map_lt _ _ i [] [] (by simpa using hi), getD_map_range _ _ _ [] hi]
    simp
  · exact hmf
  · exact hms
  · rw [getD_map_lt _ _ i [] [] (by simpa using hi), getD_map_range _ _ _ [] hi,
      getD_map_lt _ _ j 0 ((0 : ℝ), (0 : ℝ)) (by simpa using hj),
      getD_map_range _ _ _ ((0 : ℝ), (0 : ℝ)) hj]
    dsimp only
    rw [hmf, hms]
  · rw [getD_map_lt _ _ i [] [] (by simpa using hi), getD_map_range _ _ _ [] hi,
      getD_map_lt _ _ j 0 ((0 : ℝ), (0 : ℝ)) (by simpa using hj),
      getD_map_range _ _ _ ((0 : ℝ), (0 : ℝ)) hj]
    dsimp only
    rw [hmf, hms]

theorem claim_C4_witness :
    (0 : ℝ) < 1 ∧
    ((compute_cp_ct_surfaces demoBlade emptyDB [0] [6] 1).cp.getD 0 []).getD 0 0
      = (solve_bem demoBlade 1 ([(0 : ℝ)].getD 0 0)
          ([(6 : ℝ)].getD 0 0 * 1 * 60 / (2 * Real.pi * npMax demoBlade.r)) emptyDB).P
        / (0.5 * 1.225 * (Real.pi * npMax demoBlade.r ^ 2) * 1 ^ 3) :=
  ⟨by norm_num,
    (claim_C4 demoBlade emptyDB [0] [6] 1 (by norm_num) 0 0 (by norm_num)
      (by norm_num)).2.2.2.2.2.2.2.2.1⟩

/-- At zero rotor speed every differential torque term carries the factor
`ω = 0`, so the returned torque and power vanish. -/
theorem solve_bem_rpm_zero_MP (b : Blade) (v0 pitch : ℝ) (db : PolarDB) :
    (solve_bem b v0 pitch 0 db).M = 0 ∧ (solve_bem b v0 pitch 0 db).P = 0 := by
  unfold solve_bem
  dsimp only
  constructor
  · apply List.sum_eq_zero
    intro x hx
    rcases List.mem_map.mp hx with ⟨i, _, rfl⟩
    split_ifs with h
    · rfl
    · simp
  · simp

/-- The thrust returned by `solve_bem`, written as the sum over stations
of the differential thrust evaluated at the converged induction values. -/
theorem solve_bem_T_eq (b : Blade) (v0 pitch rpm : ℝ) (db : PolarDB) :
    (solve_bem b v0 pitch rpm db).T = ((List.range b.r.length).map (fun i =>
      if b.r.getD i 0 < 0.01 * npMax b.r then 0
      else
        4 * Real.pi * b.r.getD i 0 * 1.225 * v0 ^ 2 * (inductionAt b v0 pitch rpm db i).1
          * (1 - (inductionAt b v0 pitch rpm db i).1)
          * prandtlF (npMax b.r) (b.r.getD i 0)
              (arctan2 ((1 - (inductionAt b v0 pitch rpm db i).1) * v0)
                ((1 + (inductionAt b v0 pitch rpm db i).2) * (rpm * 2 * Real.pi / 60)
                  * b.r.getD i 0))
          * (npGradient b.r).getD i 0)).sum := by
  have hspec := foldl_range_spec b v0 pitch rpm db b.r.length (le_refl _)
  unfold solve_bem runStations initSt
  dsimp only
  congr 1
  apply List.map_congr_left
  intro i hi
  have hib : i < b.r.length := List.mem_range.mp hi
  have hv := hspec.2.1 i hib
  have h1 := congrArg Prod.fst hv
  have h2 := congrArg Prod.snd hv
  simp only [initSt] at h1 h2
  split_ifs with h
  · rfl
  · rw [h1, h2]

theorem demo_p0_omega : (stParamsAt demoBlade 1 0 0 emptyDB 0).omega = 0 := by
  show (0 : ℝ) * 2 * Real.pi / 60 = 0
  ring

theorem demo_p0_lookup :
    (stParamsAt demoBlade 1 0 0 emptyDB 0).lookup = fun _ => ((0.0001 : ℝ), (0.35 : ℝ)) :=
  funext fun _ => rfl

theorem arctan2_pos_zero {y : ℝ} (hy : 0 < y) : arctan2 y 0 = Real.pi / 2 := by
  unfold arctan2
  rw [if_neg (lt_irrefl 0), if_neg (lt_irrefl 0), if_pos hy]

theorem demo_prandtlF0 :
    prandtlF 2 1 (Real.pi / 2) = 2 / Real.pi * Real.arccos (Real.exp (-(3 / 2))) := by
  unfold prandtlF
  rw [Real.sin_pi_div_two]
  rw [if_neg (by norm_num : ¬ |(1 : ℝ)| < 1e-6)]
  norm_num

/-- At the demo blade's first station with `rpm = 0`, `v0 = 1` and the
fallback coefficients, every pass of the iteration produces the candidate
pair `(0.4, 0)`: the flow angle is exactly `π/2`, the axial candidate is
capped at the transition point, and the tangential guard fires. -/
theorem demo_newInduction0 (a aP : ℝ) (h0 : 0 ≤ a) (h4 : a ≤ 0.4) :
    newInduction (stParamsAt demoBlade 1 0 0 emptyDB 0) a aP = (0.4, 0) := by
  have hv0 : (stParamsAt demoBlade 1 0 0 emptyDB 0).v0 = 1 := rfl
  have hrr : (stParamsAt demoBlade 1 0 0 emptyDB 0).rr = 1 := rfl
  have hR : (stParamsAt demoBlade 1 0 0 emptyDB 0).R = 2 := demo_npMax
  have hsig : (stParamsAt demoBlade 1 0 0 emptyDB 0).sigma
      = 3 * 100 / (2 * Real.pi * 1) := rfl
  have hπ := Real.pi_pos
  have hπ4 : Real.pi < 3.15 := Real.pi_lt_315
  have hy : (0 : ℝ) < (1 - a) * 1 := by rw [mul_one]; linarith
  have hx : (1 + aP) * (0 : ℝ) * 1 = 0 := by ring
  have hphi : arctan2 ((1 - a) * 1) ((1 + aP) * 0 * 1) = Real.pi / 2 := by
    rw [hx]; exact arctan2_pos_zero hy
  have hA0 : 0 ≤ Real.arccos (Real.exp (-(3 / 2))) := Real.arccos_nonneg _
  have hA2 : Real.arccos (Real.exp (-(3 / 2))) ≤ Real.pi / 2 :=
    Real.arccos_le_pi_div_two.mpr (le_of_lt (Real.exp_pos _))
  unfold newInduction
  dsimp only
  rw [hv0, demo_p0_omega, hrr, hR, hsig, demo_p0_lookup]
  rw [hphi, Real.sin_pi_div_two, Real.cos_pi_div_two, demo_prandtlF0]
  dsimp only
  rw [if_neg (by norm_num : ¬ ((0.0001 : ℝ) * 0 + 0.35 * 1 ≤ 0.01))]
  rw [if_pos (Or.inl (by norm_num : (0.0001 : ℝ) * 1 - 0.35 * 0 ≤ 0.01))]
  have hπne : Real.pi ≠ 0 := ne_of_gt hπ
  have ht_eq : 4 * (2 / Real.pi * Real.arccos (Real.exp (-(3 / 2)))) * 1 ^ 2
      / (3 * 100 / (2 * Real.pi * 1) * (0.0001 * 0 + 0.35 * 1))
      = 16 * Real.arccos (Real.exp (-(3 / 2))) / 105 := by
    field_simp
    ring
  rw [ht_eq]
  have hden : (0 : ℝ) < 16 * Real.arccos (Real.exp (-(3 / 2))) / 105 + 1 := by linarith
  have hgt : (1 : ℝ) / (16 * Real.arccos (Real.exp (-(3 / 2))) / 105 + 1) > 0.4 := by
    rw [gt_iff_lt, lt_div_iff hden]
    nlinarith
  rw [if_pos hgt]

/-- The demo station's iteration keeps the axial induction in
`[0.2, 0.4]` and the tangential induction at `0` once it has performed
its first update. -/
theorem demo_iter_box :
    ∀ (n : ℕ) (s : ℝ × ℝ), 0.2 ≤ s.1 → s.1 ≤ 0.4 → s.2 = 0 →
      0.2 ≤ (stationIterAux (stParamsAt demoBlade 1 0 0 emptyDB 0) n s).1.1 ∧
      (stationIterAux (stParamsAt demoBlade 1 0 0 emptyDB 0) n s).1.1 ≤ 0.4 ∧
      (stationIterAux (stParamsAt demoBlade 1 0 0 emptyDB 0) n s).1.2 = 0 := by
  intro n
  induction n with
  | zero => intro s h1 h2 h3; exact ⟨h1, h2, h3⟩
  | succ n ih =>
    intro s h1 h2 h3
    rw [stationIterAux]
    split_ifs with hc
    · exact ⟨h1, h2, h3⟩
    · have hni := demo_newInduction0 s.1 s.2 (by linarith) h2
      have hupd : stationUpdate (stParamsAt demoBlade 1 0 0 emptyDB 0) s
          = (0.5 * s.1 + (1 - 0.5) * 0.4, 0) := by
        unfold stationUpdate
        rw [hni]
        dsimp only
        rw [h3, Prod.mk.injEq]
        constructor
        · show clip (0.5 * s.1 + (1 - 0.5) * 0.4) 0 0.5 = _
          unfold clip
          rw [max_eq_left (by linarith), min_eq_left (by linarith)]
        · show clip (0.5 * 0 + (1 - 0.5) * 0) (-0.5) 0.5 = 0
          unfold clip
          rw [max_eq_left (by norm_num), min_eq_left (by norm_num)]
          norm_num
      rw [hupd]
      exact ih (0.5 * s.1 + (1 - 0.5) * 0.4, 0) (by dsimp only; linarith)
        (by dsimp only; linarith) rfl

/-- The converged axial induction at the demo blade's first station lies
in `[0.2, 0.4]` and the tangential one is `0`. -/
theorem demo_station0 :
    0.2 ≤ (stationIterAux (stParamsAt demoBlade 1 0 0 emptyDB 0) 100 (0, 0)).1.1 ∧
    (stationIterAux (stParamsAt demoBlade 1 0 0 emptyDB 0) 100 (0, 0)).1.1 ≤ 0.4 ∧
    (stationIterAux (stParamsAt demoBlade 1 0 0 emptyDB 0) 100 (0, 0)).1.2 = 0 := by
  have hni := demo_newInduction0 0 0 (le_refl 0) (by norm_num)
  have hnc : ¬ convergedAt (stParamsAt demoBlade 1 0 0 emptyDB 0) (0, 0) := by
    intro hcv
    have h1 := hcv.1
    rw [show ((0, 0) : ℝ × ℝ).1 = 0 from rfl, show ((0, 0) : ℝ × ℝ).2 = 0 from rfl] at h1
    rw [hni] at h1
    rw [abs_of_nonneg (by norm_num : (0 : ℝ) ≤ 0.4 - 0)] at h1
    norm_num at h1
  rw [show (100 : ℕ) = 99 + 1 from rfl, stationIterAux]
  rw [if_neg hnc]
  have hupd : stationUpdate (stParamsAt demoBlade 1 0 0 emptyDB 0) (0, 0) = (0.2, 0) := by
    unfold stationUpdate
    rw [show ((0, 0) : ℝ × ℝ).1 = 0 from rfl, show ((0, 0) : ℝ × ℝ).2 = 0 from rfl, hni]
    dsimp only
    rw [Prod.mk.injEq]
    constructor
    · show clip (0.5 * 0 + (1 - 0.5) * 0.4) 0 0.5 = _
      unfold clip
      rw [max_eq_left (by norm_num), min_eq_left (by norm_num)]
      norm_num
    · show clip (0.5 * 0 + (1 - 0.5) * 0) (-0.5) 0.5 = 0
      unfold clip
      rw [max_eq_left (by norm_num), min_eq_left (by norm_num)]
      norm_num
  rw [hupd]
  exact demo_iter_box 99 (0.2, 0) (by norm_num) (by norm_num) rfl

theorem demo_prandtlF1 : prandtlF 2 2 (Real.pi / 2) = 0 := by
  unfold prandtlF
  rw [Real.sin_pi_div_two]
  rw [if_neg (by norm_num : ¬ |(1 : ℝ)| < 1e-6)]
  norm_num [Real.arccos_one]

theorem demo_dr0 : (npGradient demoBlade.r).getD 0 0 = 1 := by
  unfold npGradient
  rw [show demoBlade.r.length = 2 from rfl]
  rw [getD_map_range 2 0 _ 0 (by norm_num)]
  rw [show demoBlade.r.getD 1 0 = (2 : ℝ) from rfl,
    show demoBlade.r.getD 0 0 = (1 : ℝ) from rfl]
  norm_num

theorem demo_inductionAt0 : inductionAt demoBlade 1 0 0 emptyDB 0
    = (stationIterAux (stParamsAt demoBlade 1 0 0 emptyDB 0) 100 (0, 0)).1 := by
  unfold inductionAt
  rw [demo_npMax, show demoBlade.r.getD 0 0 = (1 : ℝ) from rfl]
  rw [if_neg (by norm_num : ¬ ((1 : ℝ) < 0.01 * 2))]

theorem demo_inductionAt1 : inductionAt demoBlade 1 0 0 emptyDB 1
    = (stationIterAux (stParamsAt demoBlade 1 0 0 emptyDB 1) 100 (0, 0)).1 := by
  unfold inductionAt
  rw [demo_npMax, show demoBlade.r.getD 1 0 = (2 : ℝ) from rfl]
  rw [if_neg (by norm_num : ¬ ((2 : ℝ) < 0.01 * 2))]

/-- C10: at `rpm = 0` every differential torque term carries the factor
`ω = 0`, so `solve_bem` returns torque `M = 0` and power `P = 0` for
every input, while the returned thrust can still be positive (witnessed
by the demo blade at `v0 = 1`). -/
theorem claim_C10 :
    (∀ (b : Blade) (v0 pitch : ℝ) (db : PolarDB),
      (solve_bem b v0 pitch 0 db).M = 0 ∧ (solve_bem b v0 pitch 0 db).P = 0) ∧
    0 < (solve_bem demoBlade 1 0 0 emptyDB).T := by
  refine ⟨fun b v0 pitch db => solve_bem_rpm_zero_MP b v0 pitch db, ?_⟩
  have hs0 := demo_station0
  have hm1 := stationIterAux_mem (stParamsAt demoBlade 1 0 0 emptyDB 1) 100 (0, 0)
    (le_refl 0) (by norm_num) (le_refl 0) (by norm_num)
  have hπ := Real.pi_pos
  have hπne : Real.pi ≠ 0 := ne_of_gt hπ
  have hApos : 0 < Real.arccos (Real.exp (-(3 / 2))) :=
    Real.arccos_pos.mpr (Real.exp_lt_one_iff.mpr (by norm_num))
  rw [solve_bem_T_eq]
  rw [show demoBlade.r.length = 2 from rfl]
  rw [show List.range 2 = [0, 1] by decide]
  simp only [List.map_cons, List.map_nil, List.sum_cons, List.sum_nil]
  rw [demo_npMax, show demoBlade.r.getD 0 0 = (1 : ℝ) from rfl,
    show demoBlade.r.getD 1 0 = (2 : ℝ) from rfl]
  rw [if_neg (by norm_num : ¬ ((1 : ℝ) < 0.01 * 2)),
    if_neg (by norm_num : ¬ ((2 : ℝ) < 0.01 * 2))]
  rw [demo_inductionAt0, demo_inductionAt1, demo_dr0]
  have hxz : ∀ c d : ℝ, (1 + c) * ((0 : ℝ) * 2 * Real.pi / 60) * d = 0 := by
    intro c d; ring
  simp only [hxz]
  have hy0 : (0 : ℝ)
      < (1 - (stationIterAux (stParamsAt demoBlade 1 0 0 emptyDB 0) 100 (0, 0)).1.1) * 1 := by
    rw [mul_one]; linarith [hs0.2.1]
  have hy1 : (0 : ℝ)
      < (1 - (stationIterAux (stParamsAt demoBlade 1 0 0 emptyDB 1) 100 (0, 0)).1.1) * 1 := by
    rw [mul_one]; linarith [hm1.2.1]
  rw [arctan2_pos_zero hy0, arctan2_pos_zero hy1, demo_prandtlF0, demo_prandtlF1]
  have hz1 : 4 * Real.pi * 2 * 1.225 * 1 ^ 2
      * (stationIterAux (stParamsAt demoBlade 1 0 0 emptyDB 1) 100 (0, 0)).1.1
      * (1 - (stationIterAux (stParamsAt demoBlade 1 0 0 emptyDB 1) 100 (0, 0)).1.1)
      * 0 * (npGradient demoBlade.r).getD 1 0 = 0 := by ring
  rw [hz1, add_zero]
  have heq : 4 * Real.pi * 1 * 1.225 * 1 ^ 2
      * (stationIterAux (stParamsAt demoBlade 1 0 0 emptyDB 0) 100 (0, 0)).1.1
      * (1 - (stationIterAux (stParamsAt demoBlade 1 0 0 emptyDB 0) 100 (0, 0)).1.1)
      * (2 / Real.pi * Real.arccos (Real.exp (-(3 / 2)))) * 1
      = 9.8 * ((stationIterAux (stParamsAt demoBlade 1 0 0 emptyDB 0) 100 (0, 0)).1.1
        * ((1 - (stationIterAux (stParamsAt demoBlade 1 0 0 emptyDB 0) 100 (0, 0)).1.1)
          * Real.arccos (Real.exp (-(3 / 2))))) := by
    field_simp
    ring
  rw [heq, add_zero]
  apply mul_pos (by norm_num)
  apply mul_pos (by linarith [hs0.1])
  apply mul_pos (by linarith [hs0.2.1]) hApos

end

end BEM
